import Mathlib

/-!
# Verification of the redis cache-aside layer (`redis_cache_example.py`)

Shallow embedding of the repository's caching code:

* `Value` / `jsonDumps` / `jsonLoads` — model of the external `json` library
  used by `RedisCache.set` / `RedisCache.get` (an injective, round-trippable
  text serialization of JSON-like structured values, with a decoder that can
  fail on non-well-formed input, just as `json.loads` raises).
* `Store` / `redisGet` / `redisSetex` / `redisDel` / `redisKeys` — model of the
  external redis server: a finite key space of string values, each with an
  absolute expiration instant; a key whose ttl has elapsed behaves as absent.
  `globMatch` models the glob patterns of the redis `KEYS` command (the `*`,
  `?` and literal-character forms, the fragment exercised by this repository).
* `RedisCache.get` / `RedisCache.set` / `RedisCache.delete` — the `RedisCache`
  class methods from the source.  Statefulness becomes explicit state passing:
  every method takes the current store and the current time, plus a `conn`
  flag standing for "the call to the client raised no connection error"; the
  `except` branches of the source become the `conn = false` cases.
* `wrapper` — the inner function of the `cache_result` decorator.
* `get_news_list_cache_key`, `create_news_clear`, `clear_cache` — the cache
  key built by the list reader, the invalidation loop of `create_news`, and
  the pattern branch of the `clear_cache` admin handler.
-/

/-- JSON-like structured values: the data accepted by `json.dumps` and
produced by `json.loads` (objects carry string keys, as in JSON). -/
inductive Value where
  | vnull : Value
  | vbool : Bool → Value
  | vint : Int → Value
  | vstr : String → Value
  | varr : List Value → Value
  | vobj : List (String × Value) → Value

/-- Python truthiness of a structured value (`if value:`): `None`, `False`,
`0`, `""`, `[]` and `\x7b\x7d` are falsy, everything else truthy. -/
def truthy : Value → Bool
  | Value.vnull => false
  | Value.vbool b => b
  | Value.vint i => decide (i ≠ 0)
  | Value.vstr s => !s.isEmpty
  | Value.varr xs => !xs.isEmpty
  | Value.vobj fs => !fs.isEmpty

/-- Unary length marker used by the serialized form: `n` repetitions of `l`
closed by `;`. -/
def encNat (n : Nat) : List Char := List.replicate n 'l' ++ [';']

/-- Reads back a unary length marker, returning the remaining input. -/
def decNat : List Char → Option (Nat × List Char)
  | [] => none
  | c :: rest =>
    if c = ';' then some (0, rest)
    else if c = 'l' then
      match decNat rest with
      | some (n, r) => some (n + 1, r)
      | none => none
    else none

/-- Takes exactly `n` characters off the input, failing if it is too short. -/
def takeChars : Nat → List Char → Option (List Char × List Char)
  | 0, cs => some ([], cs)
  | _ + 1, [] => none
  | n + 1, c :: cs =>
    match takeChars n cs with
    | some (xs, r) => some (c :: xs, r)
    | none => none

mutual

/-- Serialized form of a value: the model of `json.dumps` at character level.
Each construct is tagged, and sequences are length-prefixed, so the encoding
is unambiguous. -/
def encodeVal : Value → List Char
  | Value.vnull => ['n']
  | Value.vbool true => ['t']
  | Value.vbool false => ['f']
  | Value.vint i => (if i < 0 then 'm' else 'p') :: encNat i.natAbs
  | Value.vstr s => 's' :: (encNat s.length ++ s.data)
  | Value.varr xs => 'a' :: (encNat xs.length ++ encodeItems xs)
  | Value.vobj fs => 'o' :: (encNat fs.length ++ encodeFields fs)

/-- Serialized form of the items of an array. -/
def encodeItems : List Value → List Char
  | [] => []
  | v :: vs => encodeVal v ++ encodeItems vs

/-- Serialized form of the fields of an object. -/
def encodeFields : List (String × Value) → List Char
  | [] => []
  | (k, v) :: fs => encNat k.length ++ k.data ++ encodeVal v ++ encodeFields fs

end

/-- What the decoder is currently reading: a single value, `n` remaining array
items, or `n` remaining object fields. -/
inductive DMode where
  | one : DMode
  | items : Nat → DMode
  | fields : Nat → DMode

/-- Result of one decoding task. -/
inductive DRes where
  | one : Value → DRes
  | items : List Value → DRes
  | fields : List (String × Value) → DRes

/-- Fuel-indexed decoder: the model of `json.loads`, returning `none` where
`json.loads` raises.  A single function structurally recursive on the fuel, so
that it evaluates inside the kernel. -/
def decodeM : Nat → DMode → List Char → Option (DRes × List Char)
  | _, DMode.items 0, cs => some (DRes.items [], cs)
  | _, DMode.fields 0, cs => some (DRes.fields [], cs)
  | 0, _, _ => none
  | _ + 1, DMode.one, [] => none
  | fuel + 1, DMode.one, c :: cs =>
    if c = 'n' then some (DRes.one Value.vnull, cs)
    else if c = 't' then some (DRes.one (Value.vbool true), cs)
    else if c = 'f' then some (DRes.one (Value.vbool false), cs)
    else if c = 'p' then
      match decNat cs with
      | some (n, r) => some (DRes.one (Value.vint (n : Int)), r)
      | none => none
    else if c = 'm' then
      match decNat cs with
      | some (n, r) => some (DRes.one (Value.vint (-(n : Int))), r)
      | none => none
    else if c = 's' then
      match decNat cs with
      | some (n, r) =>
        match takeChars n r with
        | some (chars, r2) => some (DRes.one (Value.vstr (String.mk chars)), r2)
        | none => none
      | none => none
    else if c = 'a' then
      match decNat cs with
      | some (n, r) =>
        match decodeM fuel (DMode.items n) r with
        | some (DRes.items xs, r2) => some (DRes.one (Value.varr xs), r2)
        | _ => none
      | none => none
    else if c = 'o' then
      match decNat cs with
      | some (n, r) =>
        match decodeM fuel (DMode.fields n) r with
        | some (DRes.fields fs, r2) => some (DRes.one (Value.vobj fs), r2)
        | _ => none
      | none => none
    else none
  | fuel + 1, DMode.items (n + 1), cs =>
    match decodeM fuel DMode.one cs with
    | some (DRes.one v, r) =>
      match decodeM fuel (DMode.items n) r with
      | some (DRes.items vs, r2) => some (DRes.items (v :: vs), r2)
      | _ => none
    | _ => none
  | fuel + 1, DMode.fields (n + 1), cs =>
    match decNat cs with
    | some (klen, r0) =>
      match takeChars klen r0 with
      | some (kchars, r1) =>
        match decodeM fuel DMode.one r1 with
        | some (DRes.one v, r2) =>
          match decodeM fuel (DMode.fields n) r2 with
          | some (DRes.fields fs, r3) => some (DRes.fields ((String.mk kchars, v) :: fs), r3)
          | _ => none
        | _ => none
      | none => none
    | none => none

mutual

/-- Fuel sufficient to decode the encoding of a value. -/
def fuelVal : Value → Nat
  | Value.vnull => 1
  | Value.vbool _ => 1
  | Value.vint _ => 1
  | Value.vstr _ => 1
  | Value.varr xs => 1 + fuelItems xs
  | Value.vobj fs => 1 + fuelFields fs

/-- Fuel sufficient to decode an encoded item sequence. -/
def fuelItems : List Value → Nat
  | [] => 0
  | v :: vs => 1 + fuelVal v + fuelItems vs

/-- Fuel sufficient to decode an encoded field sequence. -/
def fuelFields : List (String × Value) → Nat
  | [] => 0
  | (_, v) :: fs => 1 + fuelVal v + fuelFields fs

end

theorem decNat_encNat (n : Nat) (rest : List Char) :
    decNat (encNat n ++ rest) = some (n, rest) := by
  induction n with
  | zero => rfl
  | succ n ih =>
    have h : encNat (n + 1) ++ rest = 'l' :: (encNat n ++ rest) := by
      simp [encNat, List.replicate_succ]
    rw [h]
    simp [decNat, ih]

theorem takeChars_append (xs rest : List Char) :
    takeChars xs.length (xs ++ rest) = some (xs, rest) := by
  induction xs with
  | nil => rfl
  | cons c cs ih => simp [takeChars, ih]

theorem takeChars_string (s : String) (rest : List Char) :
    takeChars s.length (s.data ++ rest) = some (s.data, rest) := takeChars_append s.data rest

mutual

theorem decodeM_encodeVal : ∀ (v : Value) (fuel : Nat) (rest : List Char),
    fuelVal v ≤ fuel →
      decodeM fuel DMode.one (encodeVal v ++ rest) = some (DRes.one v, rest)
  | v, 0, _, h => absurd h (by cases v <;> simp [fuelVal])
  | Value.vnull, f + 1, rest, _ => by simp [encodeVal, decodeM]
  | Value.vbool b, f + 1, rest, _ => by cases b <;> simp [encodeVal, decodeM]
  | Value.vint i, f + 1, rest, _ => by
    by_cases hi : i < 0
    · have he : encodeVal (Value.vint i) ++ rest = 'm' :: (encNat i.natAbs ++ rest) := by
        simp [encodeVal, hi]
      rw [he]
      simp [decodeM, decNat_encNat, abs_of_neg hi]
    · have he : encodeVal (Value.vint i) ++ rest = 'p' :: (encNat i.natAbs ++ rest) := by
        simp [encodeVal, hi]
      rw [he]
      simp [decodeM, decNat_encNat, abs_of_nonneg (le_of_not_lt hi)]
  | Value.vstr s, f + 1, rest, _ => by
    have he : encodeVal (Value.vstr s) ++ rest =
        's' :: (encNat s.length ++ (s.data ++ rest)) := by
      simp [encodeVal, List.append_assoc]
    rw [he]
    simp [decodeM, decNat_encNat, takeChars_string]
  | Value.varr xs, f + 1, rest, h => by
    have he : encodeVal (Value.varr xs) ++ rest =
        'a' :: (encNat xs.length ++ (encodeItems xs ++ rest)) := by
      simp [encodeVal, List.append_assoc]
    have hf : fuelItems xs ≤ f := by
      simp [fuelVal] at h; omega
    rw [he]
    simp [decodeM, decNat_encNat, decodeM_encodeItems xs f rest hf]
  | Value.vobj fs, f + 1, rest, h => by
    have he : encodeVal (Value.vobj fs) ++ rest =
        'o' :: (encNat fs.length ++ (encodeFields fs ++ rest)) := by
      simp [encodeVal, List.append_assoc]
    have hf : fuelFields fs ≤ f := by
      simp [fuelVal] at h; omega
    rw [he]
    simp [decodeM, decNat_encNat, decodeM_encodeFields fs f rest hf]

theorem decodeM_encodeItems : ∀ (xs : List Value) (fuel : Nat) (rest : List Char),
    fuelItems xs ≤ fuel →
      decodeM fuel (DMode.items xs.length) (encodeItems xs ++ rest) = some (DRes.items xs, rest)
  | [], fuel, rest, _ => by simp [encodeItems, decodeM]
  | v :: vs, 0, _, h => absurd h (by simp [fuelItems])
  | v :: vs, f + 1, rest, h => by
    have h1 : fuelVal v ≤ f := by simp [fuelItems] at h; omega
    have h2 : fuelItems vs ≤ f := by simp [fuelItems] at h; omega
    have he : encodeItems (v :: vs) ++ rest = encodeVal v ++ (encodeItems vs ++ rest) := by
      simp [encodeItems, List.append_assoc]
    rw [List.length_cons, he]
    simp [decodeM, decodeM_encodeVal v f _ h1, decodeM_encodeItems vs f rest h2]

theorem decodeM_encodeFields : ∀ (fs : List (String × Value)) (fuel : Nat) (rest : List Char),
    fuelFields fs ≤ fuel →
      decodeM fuel (DMode.fields fs.length) (encodeFields fs ++ rest) = some (DRes.fields fs, rest)
  | [], fuel, rest, _ => by simp [encodeFields, decodeM]
  | (k, v) :: fs', 0, _, h => absurd h (by simp [fuelFields])
  | (k, v) :: fs', f + 1, rest, h => by
    have h1 : fuelVal v ≤ f := by simp [fuelFields] at h; omega
    have h2 : fuelFields fs' ≤ f := by simp [fuelFields] at h; omega
    have he : encodeFields ((k, v) :: fs') ++ rest =
        encNat k.length ++ (k.data ++ (encodeVal v ++ (encodeFields fs' ++ rest))) := by
      simp [encodeFields, List.append_assoc]
    rw [List.length_cons, he]
    simp [decodeM, decNat_encNat, takeChars_string,
      decodeM_encodeVal v f _ h1, decodeM_encodeFields fs' f rest h2]

end

mutual

theorem fuelVal_le : ∀ (v : Value), fuelVal v ≤ (encodeVal v).length
  | Value.vnull => by simp [fuelVal, encodeVal]
  | Value.vbool b => by cases b <;> simp [fuelVal, encodeVal]
  | Value.vint i => by by_cases hi : i < 0 <;> simp [fuelVal, encodeVal, hi]
  | Value.vstr s => by simp [fuelVal, encodeVal]
  | Value.varr xs => by
    have h := fuelItems_le xs
    simp [fuelVal, encodeVal, encNat]
    omega
  | Value.vobj fs => by
    have h := fuelFields_le fs
    simp [fuelVal, encodeVal, encNat]
    omega

theorem fuelItems_le : ∀ (xs : List Value), fuelItems xs ≤ xs.length + (encodeItems xs).length
  | [] => by simp [fuelItems, encodeItems]
  | v :: vs => by
    have h1 := fuelVal_le v
    have h2 := fuelItems_le vs
    simp [fuelItems, encodeItems]
    omega

theorem fuelFields_le : ∀ (fs : List (String × Value)),
    fuelFields fs ≤ fs.length + (encodeFields fs).length
  | [] => by simp [fuelFields, encodeFields]
  | (k, v) :: fs' => by
    have h1 := fuelVal_le v
    have h2 := fuelFields_le fs'
    simp [fuelFields, encodeFields, encNat]
    omega

end

/-- Model of `json.dumps` at `String` level. -/
def jsonDumps (v : Value) : String := String.mk (encodeVal v)

/-- Model of `json.loads` at `String` level: `none` where `json.loads` would
raise (junk input, or trailing characters after a complete value). -/
def jsonLoads (s : String) : Option Value :=
  match decodeM s.data.length DMode.one s.data with
  | some (DRes.one v, []) => some v
  | _ => none

theorem jsonLoads_jsonDumps (v : Value) : jsonLoads (jsonDumps v) = some v := by
  have h2 : decodeM (encodeVal v).length DMode.one (encodeVal v) = some (DRes.one v, []) := by
    have h := decodeM_encodeVal v (encodeVal v).length [] (fuelVal_le v)
    simpa using h
  simp [jsonLoads, jsonDumps, h2]

theorem jsonDumps_ne_empty (v : Value) : jsonDumps v ≠ "" := by
  have h : encodeVal v ≠ [] := by
    cases v with
    | vbool b => cases b <;> simp [encodeVal]
    | _ => simp [encodeVal]
  simpa [jsonDumps, String.ext_iff] using h

/-- One key of the external redis store: the string the client wrote
(`json.dumps` output) and the absolute instant at which its ttl elapses
(`SETEX key ttl value` at time `t` yields `expiresAt = t + ttl`). -/
structure Entry where
  value : String
  expiresAt : Nat

/-- The external redis store's keyspace, as an association list. -/
abbrev Store := List (String × Entry)

/-- First entry stored under a key, expired or not. -/
def storeLookup : Store → String → Option Entry
  | [], _ => none
  | (k', e) :: rest, k => if k' = k then some e else storeLookup rest k

/-- Removal of every entry under a key (redis `DEL key`). -/
def removeKey (k : String) (st : Store) : Store :=
  st.filter (fun p => p.1 ≠ k)

/-- Redis `GET key` at instant `now`: a key whose ttl has elapsed behaves as
absent. -/
def redisGet (st : Store) (now : Nat) (k : String) : Option String :=
  match storeLookup st k with
  | some e => if now < e.expiresAt then some e.value else none
  | none => none

/-- Redis `SETEX key ttl value` at instant `now`. -/
def redisSetex (st : Store) (now : Nat) (k : String) (ttl : Nat) (v : String) : Store :=
  (k, { value := v, expiresAt := now + ttl }) :: removeKey k st

/-- Fuel-indexed worker for glob matching; every recursive call shortens
`p.length + s.length`, so fuel `p.length + s.length + 1` never runs out. -/
def globMatchF : Nat → List Char → List Char → Bool
  | 0, _, _ => false
  | _ + 1, [], [] => true
  | _ + 1, [], _ :: _ => false
  | fuel + 1, '*' :: p, [] => globMatchF fuel p []
  | fuel + 1, '*' :: p, c :: s => globMatchF fuel p (c :: s) || globMatchF fuel ('*' :: p) s
  | _ + 1, '?' :: _, [] => false
  | fuel + 1, '?' :: p, _ :: s => globMatchF fuel p s
  | _ + 1, _ :: _, [] => false
  | fuel + 1, a :: p, c :: s => (a = c) && globMatchF fuel p s

/-- Glob matching of the redis `KEYS` command, for the `*`, `?` and
literal-character pattern forms. -/
def globMatch (p s : List Char) : Bool := globMatchF (p.length + s.length + 1) p s

/-- Redis `KEYS pattern` at instant `now`: the (live) keys matching the glob
pattern. -/
def redisKeys (st : Store) (now : Nat) (pattern : String) : List String :=
  (st.filter (fun p => decide (now < p.2.expiresAt) && globMatch pattern.data p.1.data)).map
    (fun p => p.1)

/-- `RedisCache.get`: returns the deserialized value behind a key, and `None`
on a miss, on a falsy (empty) stored string, on a deserialization failure, or
on any error raised by the client (`conn = false` stands for the `except`
branch being taken because the store is unreachable). -/
def RedisCache.get (conn : Bool) (st : Store) (now : Nat) (key : String) : Option Value :=
  if conn then
    match redisGet st now key with
    | some value => if value = "" then none else jsonLoads value
    | none => none
  else none

/-- `RedisCache.set`: serializes the value and stores it with expiration
`timeout`; returns the new store state and whether the write succeeded
(`false` on the `except` branch). -/
def RedisCache.set (conn : Bool) (st : Store) (now : Nat) (key : String) (value : Value)
    (timeout : Nat) : Store × Bool :=
  if conn then (redisSetex st now key timeout (jsonDumps value), true) else (st, false)

/-- `RedisCache.delete`: removes a key; returns the new store state and `True`
unless the client raised (`false` on the `except` branch). -/
def RedisCache.delete (conn : Bool) (st : Store) (key : String) : Store × Bool :=
  if conn then (removeKey key st, true) else (st, false)

/-- The cache key built by the `cache_result` decorator:
`f"\x7bkey_prefix\x7d:\x7bfunc.__name__\x7d:\x7bargs\x7d:\x7bkwargs\x7d"`,
with the textual representations of `args` and `kwargs` taken as opaque
strings. -/
def cache_result_key ( key_prefix fname argsRepr kwargsRepr : String) : String :=
  key_prefix ++ ":" ++ fname ++ ":" ++ argsRepr ++ ":" ++ kwargsRepr

/-- The decorator's hit test `if cached_result:`, applied to what
`redis_cache.get` returned: a miss (`None`) and a falsy cached value both fail
the test. -/
def hitCheck : Option Value → Option Value
  | some v => if truthy v then some v else none
  | none => none

/-- The inner `wrapper` of the `cache_result` decorator.  The decorated
function is modelled by the outcome of invoking it, `compute : Except ε Value`
(`Except.error` for an exception it raises).  Returns the new store state, the
wrapper's outcome (`Except.error` when an exception propagates to the caller),
and how many times the decorated function was invoked.  `connGet` / `connSet`
say whether the two independent client round trips raise connection errors. -/
def wrapper {ε : Type} (connGet connSet : Bool) (timeout : Nat) (st : Store) (now : Nat)
    ( key_prefix fname argsRepr kwargsRepr : String) (compute : Except ε Value) :
    Store × Except ε Value × Nat :=
  let cache_key := cache_result_key key_prefix fname argsRepr kwargsRepr
  match hitCheck (RedisCache.get connGet st now cache_key) with
  | some cached => (st, Except.ok cached, 0)
  | none =>
    match compute with
    | Except.error e => (st, Except.error e, 1)
    | Except.ok result =>
      ((RedisCache.set connSet st now cache_key result timeout).1, Except.ok result, 1)

/-- Python `range(lo, hi)` over the ints. -/
def pyRange (lo hi : Int) : List Int :=
  (List.range (hi - lo).toNat).map (fun i => lo + (i : Int))

/-- The cache key of the list reader `get_news_list`:
`f"news:list:category_\x7bcategory_id\x7d:page_\x7bpage\x7d:size_\x7bpage_size\x7d"`. -/
def get_news_list_cache_key (category_id page page_size : Int) : String :=
  "news:list:category_" ++ toString category_id ++ ":page_" ++ toString page ++
    ":size_" ++ toString page_size

/-- The cache key deleted by the invalidation loops of the mutation handlers:
`f"news:list:category_\x7bcategory_id\x7d:page_\x7bpage\x7d:size_10"`. -/
def mutation_list_cache_key (category_id page : Int) : String :=
  "news:list:category_" ++ toString category_id ++ ":page_" ++ toString page ++ ":size_10"

/-- The cache-clearing loop of `create_news`: `for page in range(1, 6)`,
delete the list key of that page for the mutated category. -/
def create_news_clear (conn : Bool) (st : Store) (category_id : Int) : Store :=
  (pyRange 1 6).foldl
    (fun s page => (RedisCache.delete conn s (mutation_list_cache_key category_id page)).1) st

/-- Outcome reported by the `clear_cache` admin endpoint. -/
inductive ClearOutcome where
  | flushedAll : ClearOutcome
  | cleared : Nat → ClearOutcome
  | noMatch : ClearOutcome
  | failed : ClearOutcome

/-- The `clear_cache` admin handler: flush everything on pattern `"*"`,
otherwise enumerate the keys matching the pattern, delete them, and report how
many were cleared (`noMatch` renders the "no matching cache" message). -/
def clear_cache (conn : Bool) (st : Store) (now : Nat) (pattern : String) :
    Store × ClearOutcome :=
  if conn then
    if pattern = "*" then ([], ClearOutcome.flushedAll)
    else
      let keys := redisKeys st now pattern
      if keys.isEmpty then (st, ClearOutcome.noMatch)
      else (keys.foldl (fun s k => removeKey k s) st, ClearOutcome.cleared keys.length)
  else (st, ClearOutcome.failed)

theorem storeLookup_removeKey_eq (k k' : String) (st : Store) :
    storeLookup (removeKey k' st) k = if k' = k then none else storeLookup st k := by
  induction st with
  | nil => simp [removeKey, storeLookup]
  | cons p rest ih =>
    obtain ⟨k0, e⟩ := p
    by_cases h0 : k0 = k' <;> by_cases h1 : k' = k <;>
      simp_all [removeKey, List.filter_cons, storeLookup]

theorem storeLookup_removeKey (k : String) (st : Store) :
    storeLookup (removeKey k st) k = none := by
  simp [storeLookup_removeKey_eq]

theorem storeLookup_removeKey_ne (k k' : String) (st : Store) (h : k' ≠ k) :
    storeLookup (removeKey k' st) k = storeLookup st k := by
  simp [storeLookup_removeKey_eq, h]

theorem storeLookup_none_removeKey (k k' : String) (st : Store)
    (h : storeLookup st k = none) : storeLookup (removeKey k' st) k = none := by
  simp [storeLookup_removeKey_eq, h]

theorem storeLookup_foldl_remove_none (keys : List String) (st : Store) (k : String)
    (h : storeLookup st k = none) :
    storeLookup (keys.foldl (fun s k => removeKey k s) st) k = none := by
  induction keys generalizing st with
  | nil => exact h
  | cons k0 rest ih =>
    simp only [List.foldl_cons]
    exact ih (removeKey k0 st) (storeLookup_none_removeKey k k0 st h)

theorem storeLookup_foldl_remove_mem (keys : List String) (st : Store) (k : String)
    (h : k ∈ keys) :
    storeLookup (keys.foldl (fun s k => removeKey k s) st) k = none := by
  induction keys generalizing st with
  | nil => cases h
  | cons k0 rest ih =>
    simp only [List.foldl_cons]
    rcases List.mem_cons.mp h with rfl | hmem
    · exact storeLookup_foldl_remove_none rest (removeKey k st) k (storeLookup_removeKey k st)
    · exact ih (removeKey k0 st) hmem

theorem storeLookup_foldl_remove_not_mem (keys : List String) (st : Store) (k : String)
    (h : k ∉ keys) :
    storeLookup (keys.foldl (fun s k => removeKey k s) st) k = storeLookup st k := by
  induction keys generalizing st with
  | nil => rfl
  | cons k0 rest ih =>
    have h0 : k0 ≠ k := fun hx => h (by simp [hx])
    have hr : k ∉ rest := fun hx => h (List.mem_cons_of_mem _ hx)
    simp only [List.foldl_cons]
    rw [ih (removeKey k0 st) hr, storeLookup_removeKey_ne k k0 st h0]

theorem redisGet_none_of_lookup_none (st : Store) (now : Nat) (k : String)
    (h : storeLookup st k = none) : redisGet st now k = none := by
  simp [redisGet, h]

theorem get_none_of_redisGet_none (conn : Bool) (st : Store) (now : Nat) (k : String)
    (h : redisGet st now k = none) : RedisCache.get conn st now k = none := by
  cases conn <;> simp [RedisCache.get, h]

theorem storeLookup_mem (st : Store) (k : String) (e : Entry)
    (h : storeLookup st k = some e) : (k, e) ∈ st := by
  induction st with
  | nil => cases h
  | cons p rest ih =>
    obtain ⟨k', e'⟩ := p
    by_cases hk : k' = k
    · subst hk
      simp [storeLookup] at h
      subst h
      exact List.mem_cons_self _ _
    · simp [storeLookup, hk] at h
      exact List.mem_cons_of_mem _ (ih h)

theorem mem_storeLookup (st : Store) (k : String) (e : Entry)
    (hnd : (st.map Prod.fst).Nodup) (h : (k, e) ∈ st) : storeLookup st k = some e := by
  induction st with
  | nil => cases h
  | cons p rest ih =>
    obtain ⟨k', e'⟩ := p
    simp only [List.map_cons, List.nodup_cons] at hnd
    rcases List.mem_cons.mp h with heq | hmem
    · injection heq with h1 h2
      subst h1; subst h2
      simp [storeLookup]
    · have hne : k' ≠ k := by
        intro hx
        subst hx
        exact hnd.1 (List.mem_map.mpr ⟨(k', e), hmem, rfl⟩)
      simp [storeLookup, hne]
      exact ih hnd.2 hmem

theorem redisGet_congr (st1 st2 : Store) (now : Nat) (k : String)
    (h : storeLookup st1 k = storeLookup st2 k) : redisGet st1 now k = redisGet st2 now k := by
  simp [redisGet, h]

theorem get_after_set (st : Store) (now now' ttl : Nat) (k : String) (v : Value)
    (h2 : now' < now + ttl) :
    RedisCache.get true (RedisCache.set true st now k v ttl).1 now' k = some v := by
  simp [RedisCache.set, redisSetex, RedisCache.get, redisGet, storeLookup, h2,
    jsonDumps_ne_empty v, jsonLoads_jsonDumps]

theorem mem_redisKeys (st : Store) (now : Nat) (pattern : String) (k : String)
    (hnd : (st.map Prod.fst).Nodup) :
    k ∈ redisKeys st now pattern ↔
      redisGet st now k ≠ none ∧ globMatch pattern.data k.data = true := by
  unfold redisKeys
  constructor
  · intro hmem
    obtain ⟨⟨k', e⟩, hin, hk⟩ := List.mem_map.mp hmem
    obtain ⟨hst, hpred⟩ := List.mem_filter.mp hin
    simp only at hk
    subst hk
    simp only [Bool.and_eq_true, decide_eq_true_eq] at hpred
    have hlook : storeLookup st k' = some e := mem_storeLookup st k' e hnd hst
    refine ⟨?_, hpred.2⟩
    simp [redisGet, hlook, hpred.1]
  · rintro ⟨hget, hmatch⟩
    cases hl : storeLookup st k with
    | none => simp [redisGet, hl] at hget
    | some e =>
      have hlive : now < e.expiresAt := by
        by_contra hc
        simp [redisGet, hl, hc] at hget
      exact List.mem_map.mpr ⟨(k, e),
        List.mem_filter.mpr ⟨storeLookup_mem st k e hl, by simp [hlive, hmatch]⟩, rfl⟩

/-- C2: for every key `k` and value `v` accepted by `set`, with `ttl > 0`,
`set(k, v, ttl)` followed by `get(k)` before the ttl elapses (store reachable)
returns a value equal to `v`: the serialize-then-deserialize round trip
through the store is the identity on stored values. -/
theorem set_roundtrip_get (st : Store) (now now' ttl : Nat) (k : String) (v : Value)
    (h1 : 0 < ttl) (h2 : now' < now + ttl) :
    RedisCache.get true (RedisCache.set true st now k v ttl).1 now' k = some v :=
  get_after_set st now now' ttl k v h2

theorem set_roundtrip_get_witness :
    RedisCache.get true
      (RedisCache.set true [] 0 "news:detail:1"
        (Value.vobj [("id", Value.vint 1), ("title", Value.vstr "t")]) 3600).1
      0 "news:detail:1" = some (Value.vobj [("id", Value.vint 1), ("title", Value.vstr "t")]) :=
  set_roundtrip_get [] 0 0 3600 "news:detail:1"
    (Value.vobj [("id", Value.vint 1), ("title", Value.vstr "t")]) (by decide) (by decide)

/-- C9: every entry is stored with expiration `now + ttl`, and a lookup at any
time later than that instant behaves as not-found, whatever the connection
state of the lookup: the entry is never observable after its ttl. -/
theorem setex_ttl_expiry (st : Store) (now now' ttl : Nat) (k : String) (v : Value) :
    storeLookup (RedisCache.set true st now k v ttl).1 k =
      some { value := jsonDumps v, expiresAt := now + ttl } ∧
    (now + ttl < now' → ∀ conn,
      RedisCache.get conn (RedisCache.set true st now k v ttl).1 now' k = none) := by
  constructor
  · simp [RedisCache.set, redisSetex, storeLookup]
  · intro h conn
    apply get_none_of_redisGet_none
    simp only [RedisCache.set, redisSetex, if_true, redisGet, storeLookup, if_pos rfl]
    rw [if_neg (by omega)]

theorem setex_ttl_expiry_witness :
    RedisCache.get true (RedisCache.set true [] 0 "k" Value.vnull 300).1 301 "k" = none :=
  (setex_ttl_expiry [] 0 301 300 "k" Value.vnull).2 (by decide) true

/-- C8: for every key and every prior state of it, `delete` succeeds and
returns `True`, and a `get` of that key afterwards returns absent. -/
theorem delete_succeeds_get_absent (st : Store) (k : String) :
    (RedisCache.delete true st k).2 = true ∧
    ∀ conn now, RedisCache.get conn (RedisCache.delete true st k).1 now k = none := by
  constructor
  · simp [RedisCache.delete]
  · intro conn now
    apply get_none_of_redisGet_none
    apply redisGet_none_of_lookup_none
    simp [RedisCache.delete, storeLookup_removeKey]

/-- C6: `get` never propagates a store failure: it returns `None` on a
connection error, on a plain miss, and on a deserialization failure of the
stored string (the model of `get` is a total function into `Option`, so no
exception can escape it). -/
theorem get_degrades_to_miss :
    (∀ (st : Store) (now : Nat) (k : String), RedisCache.get false st now k = none) ∧
    (∀ (st : Store) (now : Nat) (k : String), redisGet st now k = none →
      RedisCache.get true st now k = none) ∧
    (∀ (st : Store) (now : Nat) (k s : String), redisGet st now k = some s →
      jsonLoads s = none → RedisCache.get true st now k = none) := by
  refine ⟨fun st now k => rfl,
    fun st now k h => get_none_of_redisGet_none true st now k h,
    fun st now k s h1 h2 => ?_⟩
  by_cases he : s = "" <;> simp [RedisCache.get, h1, he, h2]

theorem get_degrades_to_miss_witness :
    RedisCache.get false [] 0 "k" = none ∧
    RedisCache.get true [] 0 "k" = none ∧
    RedisCache.get true [("k", { value := "x", expiresAt := 100 })] 0 "k" = none :=
  ⟨get_degrades_to_miss.1 [] 0 "k",
   get_degrades_to_miss.2.1 [] 0 "k" rfl,
   get_degrades_to_miss.2.2 [("k", { value := "x", expiresAt := 100 })] 0 "k" "x" rfl rfl⟩

/-- C3: when the wrapper misses and the decorated function raises, the
exception propagates to the caller unmodified, the decorated function is
invoked exactly once, and the store is unchanged (nothing is cached for the
key). -/
theorem compute_failure_propagates {e' : Type} (connG connS : Bool) (t : Nat) (st : Store)
    (now : Nat) (pre fn a kw : String) (e : e')
    (hmiss : hitCheck (RedisCache.get connG st now (cache_result_key pre fn a kw)) = none) :
    wrapper connG connS t st now pre fn a kw (Except.error e) = (st, Except.error e, 1) := by
  simp [wrapper, hmiss]

theorem compute_failure_propagates_witness :
    wrapper true true 300 [] 0 "news" "get_categories" "()" "\x7b\x7d"
      (Except.error 0 : Except Nat Value) = ([], Except.error 0, 1) :=
  compute_failure_propagates true true 300 [] 0 "news" "get_categories" "()" "\x7b\x7d" 0 rfl

/-- C4: when the wrapper misses, the decorated function succeeds, and the
subsequent store write fails (`set` returns `False` because the store is
unreachable), the overall call still succeeds and returns the freshly
computed result, leaving the store unchanged. -/
theorem store_failure_still_returns_result (connG : Bool) (t : Nat) (st : Store)
    (now : Nat) (pre fn a kw : String) (r : Value)
    (hmiss : hitCheck (RedisCache.get connG st now (cache_result_key pre fn a kw)) = none) :
    (RedisCache.set false st now (cache_result_key pre fn a kw) r t).2 = false ∧
    wrapper connG false t st now pre fn a kw (Except.ok r : Except Unit Value) =
      (st, Except.ok r, 1) := by
  refine ⟨rfl, ?_⟩
  simp [wrapper, hmiss, RedisCache.set]

theorem store_failure_still_returns_result_witness :
    wrapper true false 300 [] 0 "news" "get_categories" "()" "\x7b\x7d"
      (Except.ok (Value.vobj [("code", Value.vint 200)]) : Except Unit Value) =
      ([], Except.ok (Value.vobj [("code", Value.vint 200)]), 1) :=
  (store_failure_still_returns_result true 300 [] 0 "news" "get_categories" "()" "\x7b\x7d"
    (Value.vobj [("code", Value.vint 200)]) rfl).2

/-- C1 counterexample: the claim "a second call within the ttl never
re-invokes compute, for every decorated compute function" fails at the
concrete input where the decorated function returns the falsy empty dict: the
first call (from the empty store, at time 0) stores the result, yet the
second call (at time 10, well within the ttl of 300) invokes the decorated
function again (its invocation count is 1, not 0), because the hit test
`if cached_result:` treats the cached falsy value as a miss. -/
theorem second_call_recomputes_falsy_cex :
    (wrapper true true 300
      (wrapper true true 300 ([] : Store) 0 "news" "get_categories" "()" "\x7b\x7d"
        (Except.ok (Value.vobj []) : Except Unit Value)).1
      10 "news" "get_categories" "()" "\x7b\x7d"
      (Except.ok (Value.vobj []) : Except Unit Value)).2.2 = 1 := by
  have hmiss : hitCheck (RedisCache.get true ([] : Store) 0
      (cache_result_key "news" "get_categories" "()" "\x7b\x7d")) = none := rfl
  have h1 : wrapper true true 300 ([] : Store) 0 "news" "get_categories" "()" "\x7b\x7d"
      (Except.ok (Value.vobj []) : Except Unit Value) =
      ((RedisCache.set true [] 0 (cache_result_key "news" "get_categories" "()" "\x7b\x7d")
        (Value.vobj []) 300).1, Except.ok (Value.vobj []), 1) := by
    simp [wrapper, hmiss]
  have hget : RedisCache.get true
      (RedisCache.set true [] 0 (cache_result_key "news" "get_categories" "()" "\x7b\x7d")
        (Value.vobj []) 300).1 10
      (cache_result_key "news" "get_categories" "()" "\x7b\x7d") = some (Value.vobj []) :=
    get_after_set [] 0 10 300 _ (Value.vobj []) (by omega)
  rw [h1]
  simp [wrapper, hget, hitCheck, truthy]

/-- C1 (amended): provided the store is reachable for both calls and the
decorated function's result is truthy, a second call to the wrapper within
the ttl of the first (the first having missed and computed) does not invoke
the decorated function at all — its outcome is independent of the function
passed to it, its invocation count is 0, and it returns a value identical to
the one the first call returned. -/
theorem second_call_within_ttl_no_recompute {e' : Type} (t : Nat) (st : Store) (now now' : Nat)
    (pre fn a kw : String) (v : Value)
    (hmiss : hitCheck (RedisCache.get true st now (cache_result_key pre fn a kw)) = none)
    (htruthy : truthy v = true) (httl : now' < now + t) :
    (wrapper true true t st now pre fn a kw (Except.ok v : Except e' Value)).2.1 =
      Except.ok v ∧
    ∀ compute2 : Except e' Value,
      wrapper true true t
        (wrapper true true t st now pre fn a kw (Except.ok v : Except e' Value)).1
        now' pre fn a kw compute2 =
      ((wrapper true true t st now pre fn a kw (Except.ok v : Except e' Value)).1,
        Except.ok v, 0) := by
  have h1 : wrapper true true t st now pre fn a kw (Except.ok v : Except e' Value) =
      ((RedisCache.set true st now (cache_result_key pre fn a kw) v t).1,
        Except.ok v, 1) := by
    simp [wrapper, hmiss]
  have hget : RedisCache.get true
      (RedisCache.set true st now (cache_result_key pre fn a kw) v t).1 now'
      (cache_result_key pre fn a kw) = some v :=
    get_after_set st now now' t _ v httl
  refine ⟨by rw [h1], fun compute2 => ?_⟩
  rw [h1]
  simp [wrapper, hget, hitCheck, htruthy]

theorem second_call_within_ttl_no_recompute_witness :
    wrapper true true 300
      (wrapper true true 300 ([] : Store) 0 "news" "get_categories" "()" "\x7b\x7d"
        (Except.ok (Value.vobj [("code", Value.vint 200)]) : Except Unit Value)).1
      10 "news" "get_categories" "()" "\x7b\x7d" (Except.error () : Except Unit Value) =
    ((wrapper true true 300 ([] : Store) 0 "news" "get_categories" "()" "\x7b\x7d"
        (Except.ok (Value.vobj [("code", Value.vint 200)]) : Except Unit Value)).1,
      Except.ok (Value.vobj [("code", Value.vint 200)]), 0) :=
  (second_call_within_ttl_no_recompute 300 [] 0 10 "news" "get_categories" "()" "\x7b\x7d"
    (Value.vobj [("code", Value.vint 200)]) rfl rfl (by decide)).2 (Except.error ())

/-- C10: when the decorated function returns a falsy value, the wrapper still
stores it (a `get` of the key within the ttl returns exactly that value), but
the stored entry never registers as a hit: every subsequent wrapper call
within the ttl invokes the decorated function again, because the hit test
checks truthiness of the value rather than presence of the key. -/
theorem falsy_result_stored_but_never_hit {e' : Type} (t : Nat) (st : Store) (now now' : Nat)
    (pre fn a kw : String) (v : Value)
    (hfalsy : truthy v = false)
    (hmiss : hitCheck (RedisCache.get true st now (cache_result_key pre fn a kw)) = none)
    (httl : now' < now + t) :
    (wrapper true true t st now pre fn a kw (Except.ok v : Except e' Value)).2.2 = 1 ∧
    RedisCache.get true
      (wrapper true true t st now pre fn a kw (Except.ok v : Except e' Value)).1 now'
      (cache_result_key pre fn a kw) = some v ∧
    ∀ compute2 : Except e' Value,
      (wrapper true true t
        (wrapper true true t st now pre fn a kw (Except.ok v : Except e' Value)).1
        now' pre fn a kw compute2).2.2 = 1 := by
  have h1 : wrapper true true t st now pre fn a kw (Except.ok v : Except e' Value) =
      ((RedisCache.set true st now (cache_result_key pre fn a kw) v t).1,
        Except.ok v, 1) := by
    simp [wrapper, hmiss]
  have hget : RedisCache.get true
      (RedisCache.set true st now (cache_result_key pre fn a kw) v t).1 now'
      (cache_result_key pre fn a kw) = some v :=
    get_after_set st now now' t _ v httl
  refine ⟨by rw [h1], by rw [h1]; exact hget, fun compute2 => ?_⟩
  rw [h1]
  cases compute2 <;> simp [wrapper, hget, hitCheck, hfalsy]

theorem falsy_result_stored_but_never_hit_witness :
    (wrapper true true 300 ([] : Store) 0 "news" "get_empty" "()" "\x7b\x7d"
      (Except.ok (Value.varr []) : Except Unit Value)).2.2 = 1 ∧
    RedisCache.get true
      (wrapper true true 300 ([] : Store) 0 "news" "get_empty" "()" "\x7b\x7d"
        (Except.ok (Value.varr []) : Except Unit Value)).1 20
      (cache_result_key "news" "get_empty" "()" "\x7b\x7d") = some (Value.varr []) ∧
    (wrapper true true 300
      (wrapper true true 300 ([] : Store) 0 "news" "get_empty" "()" "\x7b\x7d"
        (Except.ok (Value.varr []) : Except Unit Value)).1
      20 "news" "get_empty" "()" "\x7b\x7d"
      (Except.error () : Except Unit Value)).2.2 = 1 :=
  ⟨(falsy_result_stored_but_never_hit 300 [] 0 20 "news" "get_empty" "()" "\x7b\x7d"
      (Value.varr []) rfl rfl (by decide)).1,
   (falsy_result_stored_but_never_hit 300 [] 0 20 "news" "get_empty" "()" "\x7b\x7d"
      (Value.varr []) rfl rfl (by decide)).2.1,
   (falsy_result_stored_but_never_hit 300 [] 0 20 "news" "get_empty" "()" "\x7b\x7d"
      (Value.varr []) rfl rfl (by decide)).2.2 (Except.error ())⟩

/-- C5 counterexample: the claim "after a mutation, every list-cache key the
read path can derive for that category is deleted, so a subsequent list read
with those parameters misses" fails at the concrete input page 6, page size
10: the reader can produce `news:list:category_1:page_6:size_10` (it builds a
key for any page), a live entry is stored under it, and after the
`create_news` invalidation loop for category 1 (which only deletes pages 1-5
at size 10) a read of that key still hits the cache. -/
theorem create_news_leaves_derivable_key_cex :
    RedisCache.get true
      (create_news_clear true
        [(get_news_list_cache_key 1 6 10, { value := "ol;lllll;totalp;", expiresAt := 300 })] 1)
      0 (get_news_list_cache_key 1 6 10) = some (Value.vobj [("total", Value.vint 0)]) := rfl

/-- C5 (amended): the `create_news` invalidation loop deletes exactly the
enumerated list keys — category of the mutated row, pages 1 through 5, page
size 10 — after which a read of any of those keys misses; every other key of
the store is untouched; and the keys it deletes follow the same namespace
convention as the keys the list reader produces (they coincide with the
reader's keys at page size 10). -/
theorem create_news_clears_exactly_enumerated_pages (st : Store) (c : Int) :
    (∀ p, p ∈ pyRange 1 6 → ∀ conn now,
      RedisCache.get conn (create_news_clear true st c) now (mutation_list_cache_key c p) =
        none) ∧
    (∀ k, (∀ p, p ∈ pyRange 1 6 → k ≠ mutation_list_cache_key c p) →
      storeLookup (create_news_clear true st c) k = storeLookup st k) ∧
    (∀ p, mutation_list_cache_key c p = get_news_list_cache_key c p 10) := by
  have hrw : create_news_clear true st c =
      ((pyRange 1 6).map (mutation_list_cache_key c)).foldl (fun s k => removeKey k s) st := by
    simp [create_news_clear, List.foldl_map, RedisCache.delete]
  refine ⟨?_, ?_, ?_⟩
  · intro p hp conn now
    apply get_none_of_redisGet_none
    apply redisGet_none_of_lookup_none
    rw [hrw]
    exact storeLookup_foldl_remove_mem _ _ _ (List.mem_map_of_mem _ hp)
  · intro k hk
    rw [hrw]
    apply storeLookup_foldl_remove_not_mem
    intro hmem
    obtain ⟨p, hp, hpk⟩ := List.mem_map.mp hmem
    exact hk p hp hpk.symm
  · intro p
    have h10 : (toString (10 : Int)) = "10" := rfl
    have hlit : (":size_" ++ "10" : String) = ":size_10" := rfl
    unfold mutation_list_cache_key get_news_list_cache_key
    rw [h10]
    simp only [String.append_assoc, hlit]

theorem create_news_clears_pages_witness :
    RedisCache.get true (create_news_clear true [] 1) 0 (mutation_list_cache_key 1 3) = none ∧
    mutation_list_cache_key 1 2 = get_news_list_cache_key 1 2 10 :=
  ⟨(create_news_clears_exactly_enumerated_pages [] 1).1 3 (by decide) true 0,
   (create_news_clears_exactly_enumerated_pages [] 1).2.2 2⟩

/-- C7: for every pattern other than `"*"` (the pattern branch) and every
store state whose keys are distinct, `clear_cache` deletes exactly the keys
matching the glob pattern — a later `get` of any matching key returns absent
— and leaves every non-matching key's entry unchanged; it reports `cleared n`
where `n` is the number of live matching keys (the keys enumeration, which is
duplicate-free and holds exactly the live matching keys), or the no-match
message when no key matches. -/
theorem deleteMatching_exact (st : Store) (now : Nat) (pattern : String)
    (hpat : pattern ≠ "*") (hnd : (st.map Prod.fst).Nodup) :
    (∀ k, globMatch pattern.data k.data = true →
      RedisCache.get true (clear_cache true st now pattern).1 now k = none) ∧
    (∀ k, globMatch pattern.data k.data = false →
      storeLookup (clear_cache true st now pattern).1 k = storeLookup st k) ∧
    ((clear_cache true st now pattern).2
        = ClearOutcome.cleared (redisKeys st now pattern).length ∨
      (redisKeys st now pattern = [] ∧
        (clear_cache true st now pattern).2 = ClearOutcome.noMatch)) ∧
    (∀ k, k ∈ redisKeys st now pattern ↔
      (redisGet st now k ≠ none ∧ globMatch pattern.data k.data = true)) ∧
    (redisKeys st now pattern).Nodup := by
  have hchar : ∀ k, k ∈ redisKeys st now pattern ↔
      (redisGet st now k ≠ none ∧ globMatch pattern.data k.data = true) :=
    fun k => mem_redisKeys st now pattern k hnd
  have hsub : List.Sublist (redisKeys st now pattern) (st.map Prod.fst) :=
    (List.filter_sublist st).map Prod.fst
  have hkeynd : (redisKeys st now pattern).Nodup := hnd.sublist hsub
  by_cases hkeys : (redisKeys st now pattern).isEmpty
  · have hkeys' : redisKeys st now pattern = [] := List.isEmpty_iff.mp hkeys
    have hclear : clear_cache true st now pattern = (st, ClearOutcome.noMatch) := by
      simp [clear_cache, hpat, hkeys]
    refine ⟨?_, ?_, Or.inr ⟨hkeys', by rw [hclear]⟩, hchar, hkeynd⟩
    · intro k hm
      rw [hclear]
      apply get_none_of_redisGet_none
      cases hg : redisGet st now k with
      | none => rfl
      | some s =>
        exfalso
        have hk : k ∈ redisKeys st now pattern := (hchar k).mpr ⟨by simp [hg], hm⟩
        rw [hkeys'] at hk
        cases hk
    · intro k hm
      rw [hclear]
  · have hclear : clear_cache true st now pattern =
        ((redisKeys st now pattern).foldl (fun s k => removeKey k s) st,
          ClearOutcome.cleared (redisKeys st now pattern).length) := by
      simp [clear_cache, hpat, hkeys]
    refine ⟨?_, ?_, Or.inl (by rw [hclear]), hchar, hkeynd⟩
    · intro k hm
      rw [hclear]
      apply get_none_of_redisGet_none
      by_cases hmem : k ∈ redisKeys st now pattern
      · exact redisGet_none_of_lookup_none _ now k (storeLookup_foldl_remove_mem _ _ _ hmem)
      · rw [redisGet_congr _ st now k (storeLookup_foldl_remove_not_mem _ _ _ hmem)]
        cases hg : redisGet st now k with
        | none => rfl
        | some s =>
          exfalso
          exact hmem ((hchar k).mpr ⟨by simp [hg], hm⟩)
    · intro k hm
      rw [hclear]
      apply storeLookup_foldl_remove_not_mem
      intro hmem
      have hx := ((hchar k).mp hmem).2
      rw [hm] at hx
      cases hx

theorem deleteMatching_exact_witness :
    RedisCache.get true
      (clear_cache true
        [("news:list:category_3:page_1:size_10", { value := "v", expiresAt := 100 }),
         ("news:list:category_2:page_1:size_10", { value := "v", expiresAt := 100 })]
        0 "news:list:category_3:*").1 0 "news:list:category_3:page_1:size_10" = none ∧
    storeLookup
      (clear_cache true
        [("news:list:category_3:page_1:size_10", { value := "v", expiresAt := 100 }),
         ("news:list:category_2:page_1:size_10", { value := "v", expiresAt := 100 })]
        0 "news:list:category_3:*").1 "news:list:category_2:page_1:size_10" =
      storeLookup
        [("news:list:category_3:page_1:size_10", { value := "v", expiresAt := 100 }),
         ("news:list:category_2:page_1:size_10", { value := "v", expiresAt := 100 })]
        "news:list:category_2:page_1:size_10" :=
  ⟨(deleteMatching_exact
      [("news:list:category_3:page_1:size_10", { value := "v", expiresAt := 100 }),
       ("news:list:category_2:page_1:size_10", { value := "v", expiresAt := 100 })]
      0 "news:list:category_3:*" (by decide) (by decide)).1
      "news:list:category_3:page_1:size_10" (by decide),
   (deleteMatching_exact
      [("news:list:category_3:page_1:size_10", { value := "v", expiresAt := 100 }),
       ("news:list:category_2:page_1:size_10", { value := "v", expiresAt := 100 })]
      0 "news:list:category_3:*" (by decide) (by decide)).2.1
      "news:list:category_2:page_1:size_10" (by decide)⟩
